import Mathlib

/-!
Verification of the `caller` client library (pdf_uploader.py, query_client.py)
against its natural-language specification.  The Python source is shallowly
embedded: JSON payloads become the inductive `JVal`, Python `dict.get` /
truthiness / `or`-chains are modelled explicitly, and code paths that would
raise a Python exception are modelled with `Except String`.
-/

set_option maxHeartbeats 1000000

namespace Caller

/-- JSON-like values as handled by `json`/`requests` in the Python source.
Numbers are modelled as integers (no claim depends on floats). -/
inductive JVal : Type where
  | null : JVal
  | bool : Bool → JVal
  | num : Int → JVal
  | str : String → JVal
  | arr : List JVal → JVal
  | obj : List (String × JVal) → JVal

/-- Python truthiness (`bool(x)`) for the JSON values above:
`None`, `False`, `0`, `""`, `[]` and an empty dict are falsy. -/
def truthy : JVal → Bool
  | .null => false
  | .bool b => b
  | .num n => n != 0
  | .str s => s != ""
  | .arr l => !l.isEmpty
  | .obj f => !f.isEmpty

/-- Python `a or b` on JSON values. -/
def orJ (a b : JVal) : JVal := if truthy a then a else b

/-- Key lookup in a JSON object (`k in d` / `d[k]`); Python dicts have unique
keys, which an association list models with first-match lookup. -/
def jget (fields : List (String × JVal)) (k : String) : Option JVal :=
  (fields.find? (fun p => p.1 == k)).map (fun p => p.2)

/-- Python `d.get(k)`: `None` when the key is absent. -/
def getJ (fields : List (String × JVal)) (k : String) : JVal :=
  (jget fields k).getD .null

/-- Python `v == "s"` where `v` is a decoded JSON value and `"s"` a string. -/
def jvalEqStr (v : JVal) (s : String) : Bool :=
  match v with
  | .str t => t == s
  | _ => false

/-- Output of `PdfUploader._normalize_source_item`: a dict with this fixed key
set (absent input keys become `None`, i.e. `JVal.null`, except the three
defaulted ones). -/
structure NItem where
  id : JVal
  title : JVal
  asset_file_path : JVal
  asset_url : JVal
  embedded : JVal
  embedded_chunks : JVal
  insights_count : JVal
  created : JVal
  updated : JVal
  file_available : JVal
  command_id : JVal
  status : JVal
  processing_info : JVal
  raw : JVal

/-- Body of `_normalize_source_item` for a dict argument
(pdf_uploader.py lines 60-79). -/
def source_item_fields (fields : List (String × JVal)) : NItem :=
  let asset := orJ (getJ fields "asset") (.obj [])
  { id := getJ fields "id"
    title := getJ fields "title"
    asset_file_path := match asset with | .obj af => getJ af "file_path" | _ => .null
    asset_url := match asset with | .obj af => getJ af "url" | _ => .null
    embedded := (jget fields "embedded").getD (.bool false)
    embedded_chunks := (jget fields "embedded_chunks").getD (.num 0)
    insights_count := (jget fields "insights_count").getD (.num 0)
    created := getJ fields "created"
    updated := getJ fields "updated"
    file_available := getJ fields "file_available"
    command_id := getJ fields "command_id"
    status := getJ fields "status"
    processing_info := getJ fields "processing_info"
    raw := .obj fields }

/-- Model of `PdfUploader._normalize_source_item(item)`.  On a non-dict argument the
Python body evaluates `item.get("asset")`, which raises `AttributeError`;
that exception is the `.error` case. -/
def normalize_source_item : JVal → Except String NItem
  | .obj fields => .ok (source_item_fields fields)
  | _ => .error "AttributeError: object has no attribute get"

/-- The `for v in data.values()` scan of `_normalize_sources`
(pdf_uploader.py lines 95-97): first value that is a non-empty list whose
first element is a dict containing an `id` key. -/
def findNestedList : List (String × JVal) → Option (List JVal)
  | [] => none
  | (_, v) :: tl =>
      match v with
      | .arr (h :: t) =>
          match h with
          | .obj hf => if (jget hf "id").isSome then some (h :: t) else findNestedList tl
          | _ => findNestedList tl
      | _ => findNestedList tl

/-- The list comprehension `[self._normalize_source_item(i) for i in data]`:
items are normalized left to right and the first raised exception
propagates. -/
def mapItems : List JVal → Except String (List NItem)
  | [] => .ok []
  | v :: t =>
      match normalize_source_item v with
      | .error e => .error e
      | .ok it =>
          match mapItems t with
          | .error e => .error e
          | .ok rest => .ok (it :: rest)

/-- The tail of `_normalize_sources`'s dict branch once the `"results"`
check has failed (pdf_uploader.py lines 91-99): the single-record check
`data.get("id") or data.get("title")`, then the nested-list scan, then the
catch-all empty list. -/
def objRest (fields : List (String × JVal)) : Except String (List NItem) :=
  if truthy (getJ fields "id") || truthy (getJ fields "title") then
    match normalize_source_item (.obj fields) with
    | .ok it => .ok [it]
    | .error e => .error e
  else
    match findNestedList fields with
    | some l => mapItems l
    | none => .ok []

/-- Model of `PdfUploader._normalize_sources(data)` (pdf_uploader.py lines 81-99).
Branch order follows the source exactly: `None` first, then a bare list, then
for dicts the `"results"` check (`"results" in data` and the value is a
list), then `objRest` above.  An `AttributeError` raised while normalizing
one item propagates as `.error`. -/
def normalize_sources : JVal → Except String (List NItem)
  | .null => .ok []
  | .arr l => mapItems l
  | .obj fields =>
      match jget fields "results" with
      | some (.arr l) => mapItems l
      | _ => objRest fields
  | _ => .ok []




/-! Filename normalization and the document matcher
(`PdfUploader.find_source_for_file`, pdf_uploader.py lines 237-321) -/

/-- Characters treated as whitespace by Python's `\s` regex class and by
`str.strip()` for the ASCII range. -/
def isPySpace (c : Char) : Bool :=
  c == ' ' || c == '\t' || c == '\n' || c == '\r' || c == '\x0b' || c == '\x0c'

/-- Model of `pathlib.Path(fname).name` for POSIX-style paths: drop trailing slashes,
then keep what follows the last slash. -/
def basenameChars (l : List Char) : List Char :=
  let r := l.reverse.dropWhile (fun c => c == '/')
  (r.takeWhile (fun c => c != '/')).reverse

/-- The substitution `re.sub(r'\s*\(\d+\)\s*$', '', name_part)`
(pdf_uploader.py line 258): if the name ends with whitespace, a parenthesized
non-empty digit group and more whitespace, remove that one trailing group
(every match of this `$`-anchored pattern ends at the end of the string, and
`re.sub` removes the leftmost, i.e. the one whose leading `\s*` is maximal);
otherwise return the name unchanged. -/
def stripParenSuffix (l : List Char) : List Char :=
  match l.reverse.dropWhile isPySpace with
  | ')' :: r2 =>
      if (r2.takeWhile Char.isDigit).isEmpty then l
      else
        match r2.dropWhile Char.isDigit with
        | '(' :: r4 => (r4.dropWhile isPySpace).reverse
        | _ => l
  | _ => l

/-- Python `str.strip()` (ASCII whitespace). -/
def stripChars (l : List Char) : List Char :=
  ((l.dropWhile isPySpace).reverse.dropWhile isPySpace).reverse

/-- The inner `normalize_filename` of `find_source_for_file`
(pdf_uploader.py lines 248-260): take the basename; if it contains a dot,
split at the last dot (`rsplit('.', 1)`), strip one trailing parenthesized
integer suffix from the name part, `strip()` it, rejoin and lower-case;
otherwise just lower-case the basename.  `Char.toLower` matches Python
`str.lower()` on the ASCII range. -/
def normalizeFilenameChars (l : List Char) : List Char :=
  let base := basenameChars l
  if base.contains '.' then
    let r := base.reverse
    let ext := (r.takeWhile (fun c => c != '.')).reverse
    let namePart := ((r.dropWhile (fun c => c != '.')).drop 1).reverse
    let np := stripChars (stripParenSuffix namePart)
    (np ++ '.' :: ext).map Char.toLower
  else base.map Char.toLower

/-- String wrapper for `normalize_filename`. -/
def normalize_filename (s : String) : String := ⟨normalizeFilenameChars s.data⟩




/-- A candidate record as consumed by the matcher loop: the spec's data model
(section 3) types `title`, `assetFilePath`, `created` and `updated` as strings
or absent, which is also what `_normalize_source_item` produces from
well-formed backend JSON. -/
structure SourceRec where
  id : Option String
  title : Option String
  asset_file_path : Option String
  created : Option String
  updated : Option String
  deriving DecidableEq, Repr

/-- Python `(x or "") or ""` for an optional string field: `None` and `""`
both collapse to `""`. -/
def orEmpty (o : Option String) : String := o.getD ""

/-- Python `str.lower()` (ASCII). -/
def lowerStr (s : String) : String := ⟨s.data.map Char.toLower⟩

/-- Sort key `it.get("updated") or it.get("created") or ""`
(pdf_uploader.py line 319): `updated` when truthy, else `created` when
truthy, else the empty string. -/
def sortKey (s : SourceRec) : String :=
  let u := orEmpty s.updated
  if u != "" then u else orEmpty s.created

/-- The three match tiers of `find_source_for_file`. -/
inductive Tier : Type where
  | exact : Tier
  | basename : Tier
  | normalized : Tier
  deriving DecidableEq, Repr

/-- Classification of one candidate by the loop body of
`find_source_for_file` (pdf_uploader.py lines 286-310), with the `continue`
statements giving the earlier checks priority: exact `file_path` equality,
then basename-of-`file_path` or exact-`title` match (both appended to
`basename_matches`), then normalized-title match. -/
def tierOf (target : String) (s : SourceRec) : Option Tier :=
  let fp := orEmpty s.asset_file_path
  let ti := orEmpty s.title
  let targetBase := lowerStr ⟨basenameChars target.data⟩
  if fp != "" && fp == target then some .exact
  else if fp != "" && lowerStr ⟨basenameChars fp.data⟩ == targetBase then some .basename
  else if ti != "" && lowerStr ti == targetBase then some .basename
  else if ti != "" && normalize_filename ti == normalize_filename target then some .normalized
  else none

/-- List `exact_matches`: the loop appends, in listing order, every candidate the
body classifies into the first tier, so the list equals a filter by
`tierOf`. -/
def exactMatches (target : String) (cs : List SourceRec) : List SourceRec :=
  cs.filter (fun s => tierOf target s == some Tier.exact)

/-- List `basename_matches` in listing order (both the basename-of-path and the
exact-title check append here; `tierOf` already accounts for the `continue`
priority). -/
def basenameMatches (target : String) (cs : List SourceRec) : List SourceRec :=
  cs.filter (fun s => tierOf target s == some Tier.basename)

/-- List `normalized_matches` in listing order. -/
def normalizedMatches (target : String) (cs : List SourceRec) : List SourceRec :=
  cs.filter (fun s => tierOf target s == some Tier.normalized)

/-- Assignment `results = exact_matches or basename_matches or normalized_matches or []`
(pdf_uploader.py line 312). -/
def selectedResults (target : String) (cs : List SourceRec) : List SourceRec :=
  if !(exactMatches target cs).isEmpty then exactMatches target cs
  else if !(basenameMatches target cs).isEmpty then basenameMatches target cs
  else normalizedMatches target cs

/-- Python `<` on strings: lexicographic comparison by code point
(executable, unlike the iterator-based order on `String`). -/
def strLtChars : List Char → List Char → Bool
  | _, [] => false
  | [], _ :: _ => true
  | a :: x, b :: y => if a = b then strLtChars x y else decide (a < b)

/-- Python `a < b` on strings. -/
def strLt (a b : String) : Bool := strLtChars a.data b.data

/-- Selection `results.sort(key=..., reverse=True); results[0]`: Python's sort is
stable, so with `reverse=True` the first element of the sorted list is the
earliest-listed record whose sort key is maximal, which this fold computes. -/
def bestByKey (h : SourceRec) (t : List SourceRec) : SourceRec :=
  t.foldl (fun best x => if strLt (sortKey best) (sortKey x) then x else best) h

/-- The pure tail of `find_source_for_file` once the candidate list is in
hand (pdf_uploader.py lines 282-321). -/
def matchCore (target : String) (cs : List SourceRec) : Option SourceRec :=
  match selectedResults target cs with
  | [] => none
  | h :: t => some (bestByKey h t)

/-- Model of `find_source_for_file`: when the `GET /sources` listing request is not ok
the function logs and returns `None` (pdf_uploader.py lines 269-271);
otherwise it runs the matching pass over the normalized candidates. -/
def find_source_for_file (listOk : Bool) (cs : List SourceRec) (target : String) :
    Option SourceRec :=
  if listOk then matchCore target cs else none

/-- Model of `PdfUploader.source_exists` (pdf_uploader.py lines 102-112). -/
def source_exists (listOk : Bool) (cs : List SourceRec) (fname : String) : Bool :=
  (find_source_for_file listOk cs fname).isSome

/-! Uploader (`PdfUploader.upload_file_and_process`, lines 119-164) -/

/-- Assignment `filename = title or Path(file_path).name` (pdf_uploader.py line 137):
a `None` or empty title falls back to the basename of the local path. -/
def derivedFilename (title : Option String) (file_path : String) : String :=
  match title with
  | some t => if t == "" then ⟨basenameChars file_path.data⟩ else t
  | none => ⟨basenameChars file_path.data⟩

/-- Observable outcome of `upload_file_and_process`: how many
`POST /sources` creation requests were issued, plus the returned dict's
`ok` / `status_code` / `sources` fields. -/
structure UploadOutcome where
  creationRequests : Nat
  ok : Bool
  status_code : Int
  sources : List SourceRec
  deriving DecidableEq, Repr

/-- Model of `PdfUploader.upload_file_and_process` (pdf_uploader.py lines 119-164).
The network is abstracted by its observations: `listOk`/`cs` are the listing
response consumed by `find_source_for_file`, and `uploadOk`/`uploadStatus`/
`uploadSources` describe the `POST /sources` response (its JSON already put
through `_normalize_sources`), which is only consulted when no existing match
is found.  When a match exists the function returns
`{"ok": True, "status_code": 200, "sources": [existing], "raw": None}`
without any creation request (lines 140-143). -/
def upload_file_and_process (listOk : Bool) (cs : List SourceRec)
    (file_path : String) (title : Option String)
    (uploadOk : Bool) (uploadStatus : Int) (uploadSources : List SourceRec) :
    UploadOutcome :=
  let filename := derivedFilename title file_path
  match find_source_for_file listOk cs filename with
  | some existing => ⟨0, true, 200, [existing]⟩
  | none =>
      if uploadOk then ⟨1, true, uploadStatus, uploadSources⟩
      else ⟨1, false, uploadStatus, []⟩

/-! Status polling (`PdfUploader.poll_source_status`, lines 201-235) -/

/-- One wrapped response of `GET /sources/{id}/status`: the `ok` flag and
parsed body produced by `_wrap_response`. -/
structure PollResp where
  ok : Bool
  data : JVal

/-- Terminal `"completed"`/`"failed"` detection: `status in ("completed", "failed")`
compares the value of the `status` key against two strings. -/
def terminalStatus (v : JVal) : Option String :=
  match v with
  | .str s => if s == "completed" || s == "failed" then some s else none
  | _ => none

/-- One iteration's inspection of a wrapped response (pdf_uploader.py lines
219-232): a non-ok response is only logged (`.ok none` continues polling);
an ok response reads `(wrapped["data"] or {}).get("status")` — which raises
`AttributeError` if the truthy body is not a dict — and is terminal exactly
when that status is `completed` or `failed`. -/
def checkPollResp (r : PollResp) : Except String (Option (String × JVal)) :=
  if r.ok then
    match (if truthy r.data then r.data else .obj []) with
    | .obj f =>
        match terminalStatus (getJ f "status") with
        | some s => .ok (some (s, .obj f))
        | none => .ok none
    | _ => .error "AttributeError: object has no attribute get"
  else .ok none

/-- Successful poll outcome: total number of status requests issued and the
terminal status with its raw body. -/
structure PollOk where
  requests : Nat
  status : String
  raw : JVal

/-- Failure modes of the polling loop: the `TimeoutError` raised when the
wall-clock deadline passes without a terminal status, or a propagated
exception from response handling. -/
inductive PollErr : Type where
  | timeoutErr : PollErr
  | exn : String → PollErr

/-- The polling loop.  `k` is the index of the request about to be issued and
`fuel` the number of further requests the wall-clock deadline still allows:
the source re-checks `time.time() - start > timeout` only after an
inconclusive response, so even with exhausted fuel the current response is
still inspected and may succeed. -/
def pollAux (resp : Nat → PollResp) : Nat → Nat → Except PollErr PollOk
  | k, 0 =>
      match checkPollResp (resp k) with
      | .error e => .error (.exn e)
      | .ok (some (s, raw)) => .ok ⟨k + 1, s, raw⟩
      | .ok none => .error .timeoutErr
  | k, fuel + 1 =>
      match checkPollResp (resp k) with
      | .error e => .error (.exn e)
      | .ok (some (s, raw)) => .ok ⟨k + 1, s, raw⟩
      | .ok none => pollAux resp (k + 1) fuel

/-- Model of `PdfUploader.poll_source_status`: the responses of successive
`GET /sources/{id}/status` requests are abstracted as the stream `resp`, and
the `timeout`/`poll_interval` wall clock as the request budget `fuel`. -/
def poll_source_status (resp : Nat → PollResp) (fuel : Nat) : Except PollErr PollOk :=
  pollAux resp 0 fuel

/-! Session-scoped ask stream (`QueryClient.ask`, query_client.py
lines 109-140) -/

/-- One non-empty line of the server-push stream after the `data:` marker is
stripped: either `json.loads(body)` failed (`undecodable`) or it produced the
value `v`. -/
inductive RawLine : Type where
  | undecodable : String → RawLine
  | decoded : JVal → RawLine

/-- The plain-text event recorded for a line that fails JSON decoding
(query_client.py line 130). -/
def textEvent (body : String) : JVal :=
  .obj [("type", .str "text"), ("text", .str body)]

/-- Expression `ev.get("type") or ev.get("event") or "message"` (line 134). -/
def evTypeOf (f : List (String × JVal)) : JVal :=
  orJ (getJ f "type") (orJ (getJ f "event") (.str "message"))

/-- Expression `ev.get("content") or ev.get("data") or ""` (line 136). -/
def evContentOf (f : List (String × JVal)) : JVal :=
  orJ (getJ f "content") (orJ (getJ f "data") (.str ""))

/-- Body of the stream loop for one line (query_client.py lines 118-137),
acting on the accumulators `(events, ai_chunks)`.  A decoded non-dict value
reaches `ev.get("type")` and raises `AttributeError`. -/
def streamStep (acc : List JVal × List JVal) (l : RawLine) :
    Except String (List JVal × List JVal) :=
  match l with
  | .undecodable body => .ok (acc.1 ++ [textEvent body], acc.2)
  | .decoded ev =>
      match ev with
      | .obj f =>
          if jvalEqStr (evTypeOf f) "ai_message" then
            .ok (acc.1 ++ [ev], acc.2 ++ [evContentOf f])
          else .ok (acc.1 ++ [ev], acc.2)
      | _ => .error "AttributeError: object has no attribute get"

/-- Python `"".join(ai_chunks)`: joining raises `TypeError` on a non-string chunk. -/
def joinChunks : List JVal → Except String String
  | [] => .ok ""
  | .str s :: t => (joinChunks t).map (fun r => s ++ r)
  | _ :: _ => .error "TypeError: join expects str"

/-- The fields of the dict returned by the Strategy-1 branch of
`QueryClient.ask` (query_client.py line 140); `search_results` is always
`[]` and is omitted. -/
structure AskStreamResult where
  total : Nat
  answer : String
  events : List JVal

/-- The stream-consuming tail of `QueryClient.ask` when `source_ids` is
given: fold the loop body over the (already line-split and decoded) stream,
then join the accumulated AI chunks. -/
def ask_stream (lines : List RawLine) : Except String AskStreamResult := do
  let acc ← lines.foldlM streamStep ([], [])
  let ans ← joinChunks acc.2
  .ok ⟨acc.2.length, ans, acc.1⟩

/-! Notebook pipeline (`QueryClient.notebook_ask`, query_client.py
lines 172-261) -/

/-- The backend endpoints `notebook_ask` can hit, used to log issued
requests. -/
inductive Endpoint : Type where
  | modelsDefaults : Endpoint
  | notebooksCreate : Endpoint
  | linkSource : Endpoint
  | chatContext : Endpoint
  | chatSessionsCreate : Endpoint
  | chatExecute : Endpoint
  deriving DecidableEq, Repr

/-- Abstracted backend behaviour for one `notebook_ask` run: for each
endpoint, whether `raise_for_status()` passes and the parsed JSON body. -/
structure NBBackend where
  defaultsOk : Bool
  defaultsData : JVal
  nbCreateOk : Bool
  nbCreateData : JVal
  linkOk : Bool
  ctxOk : Bool
  ctxData : JVal
  sessOk : Bool
  sessData : JVal
  execOk : Bool
  execData : JVal

/-- Result dict of `notebook_ask` (query_client.py lines 256-261). -/
structure NBResult where
  notebook_id : JVal
  session_id : JVal
  messages : JVal
  ai_answer : JVal

/-- Step 2 of `notebook_ask` (query_client.py lines 199-206): when
`notebook_id` is falsy, `POST /notebooks` is issued; a failing response
raises, a succeeding one yields `nb_resp.json().get("id")` (raising
`AttributeError` on a non-dict body). -/
def step_notebook (b : NBBackend) (notebook_id : Option String) :
    List Endpoint × Except String JVal :=
  match notebook_id with
  | some nid => ([], .ok (.str nid))
  | none =>
      if b.nbCreateOk then
        match b.nbCreateData with
        | .obj f => ([.notebooksCreate], .ok (getJ f "id"))
        | _ => ([.notebooksCreate], .error "AttributeError: object has no attribute get")
      else ([.notebooksCreate], .error "HTTPError")

/-- Step 5 of `notebook_ask` (query_client.py lines 226-233): symmetric to
`step_notebook` for `POST /chat/sessions`. -/
def step_session (b : NBBackend) (session_id : Option String) :
    List Endpoint × Except String JVal :=
  match session_id with
  | some sid => ([], .ok (.str sid))
  | none =>
      if b.sessOk then
        match b.sessData with
        | .obj f => ([.chatSessionsCreate], .ok (getJ f "id"))
        | _ => ([.chatSessionsCreate], .error "AttributeError: object has no attribute get")
      else ([.chatSessionsCreate], .error "HTTPError")

/-- Answer extraction from the `POST /chat/execute` body (query_client.py
lines 246-254): `msgs = resp_data.get("messages", [])`; when `msgs` is a
truthy list its last element must be a dict, and its `content` is the answer
only when its `type` is `"ai"`. -/
def extract_exec (execData : JVal) : Except String (JVal × JVal) :=
  match execData with
  | .obj ef =>
      match (jget ef "messages").getD (.arr []) with
      | .arr msgs =>
          match msgs.getLast? with
          | none => .ok (.arr msgs, .str "")
          | some last =>
              match last with
              | .obj lf =>
                  if jvalEqStr (getJ lf "type") "ai"
                  then .ok (.arr msgs, (jget lf "content").getD (.str ""))
                  else .ok (.arr msgs, .str "")
              | _ => .error "AttributeError: object has no attribute get"
      | other =>
          if truthy other then .error "TypeError: object is not subscriptable"
          else .ok (other, .str "")
  | _ => .error "AttributeError: object has no attribute get"

/-- Model of `QueryClient.notebook_ask`, returning the ordered list of issued backend
requests together with the result (`.error` models a raised exception after
the logged requests were already sent).  Step 1 (`GET /models/defaults`) is
best-effort: its failure only leaves `defaults` empty.  Steps 3, 4 and 6
(`link`, `/chat/context`, `/chat/execute`) raise on a failing response. -/
def notebook_ask (b : NBBackend) (notebook_id session_id : Option String) :
    List Endpoint × Except String NBResult :=
  let l1 : List Endpoint := [.modelsDefaults]
  let (l2, r2) := step_notebook b notebook_id
  match r2 with
  | .error e => (l1 ++ l2, .error e)
  | .ok nbid =>
      let log3 := l1 ++ l2 ++ [.linkSource]
      if !b.linkOk then (log3, .error "HTTPError") else
      let log4 := log3 ++ [.chatContext]
      if !b.ctxOk then (log4, .error "HTTPError") else
      match b.ctxData with
      | .obj _ =>
          let (l5, r5) := step_session b session_id
          match r5 with
          | .error e => (log4 ++ l5, .error e)
          | .ok sid =>
              let log6 := log4 ++ l5 ++ [.chatExecute]
              if !b.execOk then (log6, .error "HTTPError") else
              match extract_exec b.execData with
              | .error e => (log6, .error e)
              | .ok (msgs, ans) => (log6, .ok ⟨nbid, sid, msgs, ans⟩)
      | _ => (log4, .error "AttributeError: object has no attribute get")

/-- Condition `"results" in data and isinstance(data["results"], list)` as a Boolean. -/
def resultsListed (fields : List (String × JVal)) : Bool :=
  match jget fields "results" with
  | some (.arr _) => true
  | _ => false

/-- Whether a JSON value is a keyed object (a Python dict). -/
def isObjJ : JVal → Bool
  | .obj _ => true
  | _ => false

/-- The sequence of items the dict tail `objRest` maps
`_normalize_source_item` over, when any. -/
def objSeq? (fields : List (String × JVal)) : Option (List JVal) :=
  if truthy (getJ fields "id") || truthy (getJ fields "title") then
    some [.obj fields]
  else findNestedList fields

/-- The sequence of items `_normalize_sources` maps
`_normalize_source_item` over, when any. -/
def selectedSeq? : JVal → Option (List JVal)
  | .arr l => some l
  | .obj fields =>
      match jget fields "results" with
      | some (.arr l) => some l
      | _ => objSeq? fields
  | _ => none

/-- The status responses of the spec's example: `running` twice, then
`completed`. -/
def respCompletedThird : Nat → PollResp := fun k =>
  if k < 2 then ⟨true, .obj [("status", JVal.str "running")]⟩
  else ⟨true, .obj [("status", JVal.str "completed")]⟩

/-- The event each stream line contributes to `events`. -/
def lineEvent : RawLine → JVal
  | .undecodable b => textEvent b
  | .decoded v => v

/-- The answer fragment a stream line contributes, if any: the content (or
data) of a decoded `ai_message` event. -/
def lineChunk? : RawLine → Option String
  | .decoded (.obj f) =>
      if jvalEqStr (evTypeOf f) "ai_message" then
        match evContentOf f with
        | .str s => some s
        | _ => none
      else none
  | _ => none

/-- Well-formed stream line: decoded values are objects and AI contents are
strings (the shapes on which the Python loop completes normally). -/
def wfLine : RawLine → Bool
  | .undecodable _ => true
  | .decoded (.obj f) =>
      if jvalEqStr (evTypeOf f) "ai_message" then
        match evContentOf f with
        | .str _ => true
        | _ => false
      else true
  | .decoded _ => false

/-- Concatenation of a list of strings in order. -/
def concatStrs : List String → String
  | [] => ""
  | s :: t => s ++ concatStrs t

/-- A backend on which every `notebook_ask` step succeeds. -/
def nbBackendOkW : NBBackend :=
  ⟨true, .obj [], true, .obj [("id", .str "nb1")], true, true,
   .obj [("context", .str "ctx")], true, .obj [("id", .str "s1")], true,
   .obj [("messages", .arr [.obj [("type", .str "ai"), ("content", .str "hi")]])]⟩

/-! Helper lemmas on `takeWhile`/`dropWhile` -/

theorem dropWhile_append_of_all {p : Char → Bool} {x : List Char} (y : List Char)
    (h : ∀ c ∈ x, p c = true) :
    (x ++ y).dropWhile p = y.dropWhile p := by
  induction x with
  | nil => rfl
  | cons a t ih =>
      have ha : p a = true := h a (List.mem_cons_self a t)
      simp only [List.cons_append, List.dropWhile_cons, ha, if_true]
      exact ih (fun c hc => h c (List.mem_cons_of_mem a hc))

theorem takeWhile_append_of_all {p : Char → Bool} {x : List Char} (y : List Char)
    (h : ∀ c ∈ x, p c = true) :
    (x ++ y).takeWhile p = x ++ y.takeWhile p := by
  induction x with
  | nil => rfl
  | cons a t ih =>
      have ha : p a = true := h a (List.mem_cons_self a t)
      simp only [List.cons_append, List.takeWhile_cons, ha, if_true]
      rw [ih (fun c hc => h c (List.mem_cons_of_mem a hc))]

theorem dropWhile_of_all {p : Char → Bool} {x : List Char}
    (h : ∀ c ∈ x, p c = true) :
    x.dropWhile p = [] := by
  induction x with
  | nil => rfl
  | cons a t ih =>
      have ha : p a = true := h a (List.mem_cons_self a t)
      simp only [List.dropWhile_cons, ha, if_true]
      exact ih (fun c hc => h c (List.mem_cons_of_mem a hc))

theorem takeWhile_of_all {p : Char → Bool} {x : List Char}
    (h : ∀ c ∈ x, p c = true) :
    x.takeWhile p = x := by
  induction x with
  | nil => rfl
  | cons a t ih =>
      have ha : p a = true := h a (List.mem_cons_self a t)
      simp only [List.takeWhile_cons, ha, if_true]
      rw [ih (fun c hc => h c (List.mem_cons_of_mem a hc))]

theorem dropWhile_cons_neg {p : Char → Bool} {a : Char} (l : List Char)
    (h : p a = false) : (a :: l).dropWhile p = a :: l := by
  simp [List.dropWhile_cons, h]

theorem takeWhile_cons_neg {p : Char → Bool} {a : Char} (l : List Char)
    (h : p a = false) : (a :: l).takeWhile p = [] := by
  simp [List.takeWhile_cons, h]

/-- Function `dropWhile` distributes over an append whose left part keeps a
surviving element. -/
theorem dropWhile_append_of_ne {p : Char → Bool} {x : List Char} {b : Char}
    {u : List Char} (y : List Char) (h : x.dropWhile p = b :: u) :
    (x ++ y).dropWhile p = b :: u ++ y := by
  induction x with
  | nil => simp at h
  | cons c t ih =>
      by_cases hc : p c = true
      · simp only [List.dropWhile_cons, hc, if_true] at h
        simp only [List.cons_append, List.dropWhile_cons, hc, if_true]
        exact ih h
      · have hc' : p c = false := by simpa using hc
        rw [dropWhile_cons_neg _ hc'] at h
        rw [List.cons_append, dropWhile_cons_neg _ hc']
        rw [List.cons_eq_cons] at h
        rw [h.1, h.2]
        simp

/-- Left strip and right strip commute. -/
theorem dropWhile_rdropWhile_comm (p : Char → Bool) (l : List Char) :
    (List.rdropWhile p l).dropWhile p = List.rdropWhile p (l.dropWhile p) := by
  induction' l using List.reverseRecOn with l x ih
  · rfl
  · by_cases hx : p x = true
    · rw [List.rdropWhile_concat_pos p l x hx, ih]
      cases hd : l.dropWhile p with
      | nil =>
          have hall : ∀ c ∈ l, p c = true := List.dropWhile_eq_nil_iff.mp hd
          have hlx : (l ++ [x]).dropWhile p = [] := by
            rw [dropWhile_append_of_all _ hall]
            simp [List.dropWhile_cons, hx]
          rw [hlx]
      | cons b u =>
          have hlx : (l ++ [x]).dropWhile p = (b :: u) ++ [x] :=
            dropWhile_append_of_ne _ hd
          rw [hlx, List.rdropWhile_concat_pos p (b :: u) x hx]
    · have hx' : ¬ p x := by simp [hx]
      rw [List.rdropWhile_concat_neg p l x hx']
      cases hd : l.dropWhile p with
      | nil =>
          have hall : ∀ c ∈ l, p c = true := List.dropWhile_eq_nil_iff.mp hd
          have hlx : (l ++ [x]).dropWhile p = [x] := by
            rw [dropWhile_append_of_all _ hall]
            exact dropWhile_cons_neg _ (by simpa using hx')
          rw [hlx, List.rdropWhile_singleton]
          simp [hx']
      | cons b u =>
          have hlx : (l ++ [x]).dropWhile p = (b :: u) ++ [x] :=
            dropWhile_append_of_ne _ hd
          rw [hlx, List.rdropWhile_concat_neg p (b :: u) x hx']

/-! Structural lemmas about `normalize_filename` -/

theorem stripChars_eq (l : List Char) :
    stripChars l = List.rdropWhile isPySpace (l.dropWhile isPySpace) := rfl

/-- Python `strip()` ignores an already-performed right strip. -/
theorem stripChars_rdropWhile (l : List Char) :
    stripChars (List.rdropWhile isPySpace l) = stripChars l := by
  rw [stripChars_eq, stripChars_eq, dropWhile_rdropWhile_comm, List.rdropWhile_idempotent]

theorem basenameChars_no_slash {l : List Char} (h : '/' ∉ l) : basenameChars l = l := by
  unfold basenameChars
  have h1 : l.reverse.dropWhile (fun c => c == '/') = l.reverse := by
    cases hr : l.reverse with
    | nil => rfl
    | cons a t =>
        apply dropWhile_cons_neg
        have ha : a ∈ l := List.mem_reverse.mp (hr ▸ List.mem_cons_self a t)
        have hne : a ≠ '/' := fun he => h (he ▸ ha)
        simp [hne]

  have h2 : ∀ c ∈ l.reverse, (c != '/') = true := by
    intro c hc
    have hne : c ≠ '/' := fun he => h (he ▸ List.mem_reverse.mp hc)
    simp [hne]
  rw [h1]
  simp only [takeWhile_of_all h2, List.reverse_reverse]

/-- Shape of `normalize_filename` on a filename of the form
`stem ++ "." ++ ext` with a dot-free extension and no path separator. -/
theorem normalizeFilenameChars_split (stem ext : List Char)
    (hslash : '/' ∉ stem ++ '.' :: ext) (hext : '.' ∉ ext) :
    normalizeFilenameChars (stem ++ '.' :: ext) =
      (stripChars (stripParenSuffix stem) ++ '.' :: ext).map Char.toLower := by
  have hbase : basenameChars (stem ++ '.' :: ext) = stem ++ '.' :: ext :=
    basenameChars_no_slash hslash
  have hrev : (stem ++ '.' :: ext).reverse = ext.reverse ++ '.' :: stem.reverse := by
    rw [List.reverse_append, List.reverse_cons, List.append_assoc, List.singleton_append]
  have hall : ∀ c ∈ ext.reverse, (c != '.') = true := by
    intro c hc
    have hne : c ≠ '.' := fun he => hext (he ▸ List.mem_reverse.mp hc)
    simp [hne]
  have htake : (stem ++ '.' :: ext).reverse.takeWhile (fun c => c != '.') = ext.reverse := by
    rw [hrev, takeWhile_append_of_all _ hall, takeWhile_cons_neg _ (by decide)]
    simp
  have hdrop : (stem ++ '.' :: ext).reverse.dropWhile (fun c => c != '.') = '.' :: stem.reverse := by
    rw [hrev, dropWhile_append_of_all _ hall, dropWhile_cons_neg _ (by decide)]
  have hcontains : (stem ++ '.' :: ext).contains '.' = true := by simp
  simp only [normalizeFilenameChars]
  rw [hbase, hcontains, htake, hdrop]
  simp

/-- Regex step on a name that ends in a parenthesized digit group: the
substitution removes exactly that group together with the whitespace around
its opening parenthesis, leaving a right-stripped stem. -/
theorem stripParenSuffix_appended (stem ds : List Char)
    (hne : ds ≠ []) (hds : ∀ c ∈ ds, c.isDigit = true) :
    stripParenSuffix (stem ++ ' ' :: '(' :: (ds ++ [')'])) =
      List.rdropWhile isPySpace stem := by
  have hrev : (stem ++ ' ' :: '(' :: (ds ++ [')'])).reverse =
      ')' :: (ds.reverse ++ '(' :: ' ' :: stem.reverse) := by
    rw [List.reverse_append, List.reverse_cons, List.reverse_cons, List.reverse_append]
    simp [List.append_assoc]
  have hallds : ∀ c ∈ ds.reverse, Char.isDigit c = true :=
    fun c hc => hds c (List.mem_reverse.mp hc)
  have htake : (ds.reverse ++ '(' :: ' ' :: stem.reverse).takeWhile Char.isDigit =
      ds.reverse := by
    rw [takeWhile_append_of_all _ hallds, takeWhile_cons_neg _ (by decide)]
    simp
  have hdrop : (ds.reverse ++ '(' :: ' ' :: stem.reverse).dropWhile Char.isDigit =
      '(' :: ' ' :: stem.reverse := by
    rw [dropWhile_append_of_all _ hallds, dropWhile_cons_neg _ (by decide)]
  have hdsne : ds.reverse.isEmpty = false := by
    cases hd : ds.reverse with
    | nil => exact absurd (by simpa using congrArg List.reverse hd) hne
    | cons a t => rfl
  have hdisc : (stem ++ ' ' :: '(' :: (ds ++ [')'])).reverse.dropWhile isPySpace =
      ')' :: (ds.reverse ++ '(' :: ' ' :: stem.reverse) := by
    rw [hrev]
    exact dropWhile_cons_neg _ (by decide)
  simp only [stripParenSuffix]
  rw [hdisc]
  simp only [htake, hdrop, hdsne, Bool.false_eq_true, if_false]
  have hspc : isPySpace ' ' = true := rfl
  have hsp : (' ' :: stem.reverse).dropWhile isPySpace = stem.reverse.dropWhile isPySpace := by
    simp [List.dropWhile_cons, hspc]
  rw [hsp]
  rfl

/-- Function `normalize_filename` only looks at the basename. -/
theorem normalizeFilenameChars_basename (x y : List Char)
    (h : basenameChars x = basenameChars y) :
    normalizeFilenameChars x = normalizeFilenameChars y := by
  simp only [normalizeFilenameChars, h]

theorem basenameChars_append_slash (pre : List Char) {l : List Char}
    (hne : l ≠ []) (h : '/' ∉ l) : basenameChars (pre ++ '/' :: l) = l := by
  have hrev : (pre ++ '/' :: l).reverse = l.reverse ++ '/' :: pre.reverse := by
    rw [List.reverse_append, List.reverse_cons, List.append_assoc, List.singleton_append]
  cases hl : l.reverse with
  | nil => exact absurd (by simpa using congrArg List.reverse hl) hne
  | cons a t =>
      have ha : a ∈ l := List.mem_reverse.mp (hl ▸ List.mem_cons_self a t)
      have hane : a ≠ '/' := fun he => h (he ▸ ha)
      have hstep : (l.reverse ++ '/' :: pre.reverse).dropWhile (fun c => c == '/') =
          l.reverse ++ '/' :: pre.reverse := by
        rw [hl]
        have h1 : (a :: t).dropWhile (fun c => c == '/') = a :: t :=
          dropWhile_cons_neg _ (by simp [hane])
        rw [dropWhile_append_of_ne _ h1]
      have hall : ∀ c ∈ l.reverse, (c != '/') = true := by
        intro c hc
        have hcc : c ≠ '/' := fun he => h (he ▸ List.mem_reverse.mp hc)
        simp [hcc]
      unfold basenameChars
      rw [hrev, hstep]
      show ((l.reverse ++ '/' :: pre.reverse).takeWhile (fun c => c != '/')).reverse = l
      rw [takeWhile_append_of_all _ hall, takeWhile_cons_neg _ (by decide)]
      simp

/-- C2 (counterexample): `"a (1).pdf"` and `"a (1) (3).pdf"` differ only by
the trailing parenthesized integer suffix `" (3)"` immediately before the
extension, yet `normalize_filename` maps them to different strings: the
substitution is anchored at the end of the name and removes only one suffix,
so the stem's own `" (1)"` survives on one side and is stripped on the
other. -/
theorem normalize_filename_cex :
    ("a (1).pdf" = "a (1)" ++ ".pdf")
  ∧ ("a (1) (3).pdf" = "a (1)" ++ " (3)" ++ ".pdf")
  ∧ normalize_filename "a (1).pdf" = "a.pdf"
  ∧ normalize_filename "a (1) (3).pdf" = "a (1).pdf"
  ∧ normalize_filename "a (1).pdf" ≠ normalize_filename "a (1) (3).pdf" :=
  ⟨rfl, rfl, by decide, by decide, by decide⟩

/-- C2 (amended): for filenames `stem ++ "." ++ ext` and
`stem ++ " (" ++ digits ++ ")." ++ ext` — the second being the first with a
server-added parenthesized integer suffix before the extension —
`normalize_filename` produces identical strings, provided the shared stem
does not itself end in a parenthesized integer suffix (the substitution is
`$`-anchored and strips only one suffix).  A path prefix is likewise
irrelevant (second conjunct), and the result is lower-cased, so the two
sides agree regardless of the letter case of the copies (e.g.
`"plan.pdf"` vs `"plan (3).PDF"`, third conjunct). -/
theorem normalize_filename_suffix_amended
    (stem ext ds : List Char)
    (hfix : stripParenSuffix stem = stem)
    (hne : ds ≠ []) (hds : ∀ c ∈ ds, c.isDigit = true)
    (hstem : '/' ∉ stem) (hextS : '/' ∉ ext) (hextD : '.' ∉ ext) :
    (normalize_filename ⟨stem ++ ' ' :: '(' :: (ds ++ ')' :: '.' :: ext)⟩ =
       normalize_filename ⟨stem ++ '.' :: ext⟩)
  ∧ (∀ pre l : List Char, l ≠ [] → '/' ∉ l →
       normalize_filename ⟨pre ++ '/' :: l⟩ = normalize_filename ⟨l⟩)
  ∧ normalize_filename "plan (3).PDF" = normalize_filename "plan.pdf" := by
  refine ⟨?_, ?_, by decide⟩
  · have hds_slash : ∀ c ∈ ds, c ≠ '/' := by
      intro c hc he
      have hd := hds c hc
      rw [he] at hd
      exact absurd hd (by decide)
    have hdecomp : stem ++ ' ' :: '(' :: (ds ++ ')' :: '.' :: ext) =
        (stem ++ ' ' :: '(' :: (ds ++ [')'])) ++ '.' :: ext := by
      simp [List.append_assoc]
    have hsl2 : '/' ∉ (stem ++ ' ' :: '(' :: (ds ++ [')'])) ++ '.' :: ext := by
      intro hmem
      rw [List.mem_append] at hmem
      rcases hmem with h | h
      · rw [List.mem_append] at h
        rcases h with h | h
        · exact hstem h
        · rw [List.mem_cons] at h
          rcases h with h | h
          · exact absurd h (by decide)
          · rw [List.mem_cons] at h
            rcases h with h | h
            · exact absurd h (by decide)
            · rw [List.mem_append] at h
              rcases h with h | h
              · exact hds_slash '/' h rfl
              · rw [List.mem_singleton] at h
                exact absurd h (by decide)
      · rw [List.mem_cons] at h
        rcases h with h | h
        · exact absurd h (by decide)
        · exact hextS h
    have hsl1 : '/' ∉ stem ++ '.' :: ext := by
      intro hmem
      rw [List.mem_append] at hmem
      rcases hmem with h | h
      · exact hstem h
      · rw [List.mem_cons] at h
        rcases h with h | h
        · exact absurd h (by decide)
        · exact hextS h
    have hlist : normalizeFilenameChars (stem ++ ' ' :: '(' :: (ds ++ ')' :: '.' :: ext)) =
        normalizeFilenameChars (stem ++ '.' :: ext) := by
      rw [hdecomp, normalizeFilenameChars_split _ _ hsl2 hextD,
        normalizeFilenameChars_split _ _ hsl1 hextD,
        stripParenSuffix_appended stem ds hne hds, stripChars_rdropWhile, hfix]
    exact congrArg String.mk hlist
  · intro pre l hlne hlsl
    have hlist : normalizeFilenameChars (pre ++ '/' :: l) = normalizeFilenameChars l :=
      normalizeFilenameChars_basename _ _ (by
        rw [basenameChars_append_slash pre hlne hlsl, basenameChars_no_slash hlsl])
    exact congrArg String.mk hlist

/-- Concrete instantiation of `normalize_filename_suffix_amended`. -/
theorem normalize_filename_suffix_amended_witness :
    normalize_filename "plan (3).pdf" = normalize_filename "plan.pdf" :=
  (normalize_filename_suffix_amended "plan".data "pdf".data "3".data
    (by decide) (by decide) (by decide) (by decide) (by decide) (by decide)).1

/-! Claims C6 and C7: the response normalizer -/



theorem normalize_sources_obj_results {fields : List (String × JVal)} {l : List JVal}
    (h : jget fields "results" = some (JVal.arr l)) :
    normalize_sources (JVal.obj fields) = mapItems l := by
  simp only [normalize_sources, h]

theorem normalize_sources_obj_of_not_results {fields : List (String × JVal)}
    (h : resultsListed fields = false) :
    normalize_sources (JVal.obj fields) = objRest fields := by
  unfold resultsListed at h
  cases hres : jget fields "results" with
  | none => simp only [normalize_sources, hres]
  | some v =>
      rw [hres] at h
      cases v with
      | arr l => simp at h
      | null => simp only [normalize_sources, hres]
      | bool b => simp only [normalize_sources, hres]
      | num n => simp only [normalize_sources, hres]
      | str s => simp only [normalize_sources, hres]
      | obj f2 => simp only [normalize_sources, hres]

theorem selectedSeq_obj_results {fields : List (String × JVal)} {l : List JVal}
    (h : jget fields "results" = some (JVal.arr l)) :
    selectedSeq? (JVal.obj fields) = some l := by
  simp only [selectedSeq?, h]

theorem selectedSeq_obj_of_not_results {fields : List (String × JVal)}
    (h : resultsListed fields = false) :
    selectedSeq? (JVal.obj fields) = objSeq? fields := by
  unfold resultsListed at h
  cases hres : jget fields "results" with
  | none => simp only [selectedSeq?, hres]
  | some v =>
      rw [hres] at h
      cases v with
      | arr l => simp at h
      | null => simp only [selectedSeq?, hres]
      | bool b => simp only [selectedSeq?, hres]
      | num n => simp only [selectedSeq?, hres]
      | str s => simp only [selectedSeq?, hres]
      | obj f2 => simp only [selectedSeq?, hres]

theorem mapItems_ok_of_obj {l : List JVal} (h : ∀ e ∈ l, isObjJ e = true) :
    ∃ out, mapItems l = .ok out := by
  induction l with
  | nil => exact ⟨[], rfl⟩
  | cons a t ih =>
      have ha : isObjJ a = true := h a (List.mem_cons_self a t)
      obtain ⟨rest, hrest⟩ := ih (fun e he => h e (List.mem_cons_of_mem a he))
      cases a with
      | obj fields =>
          exact ⟨source_item_fields fields :: rest, by
            simp only [mapItems, normalize_source_item, hrest]⟩
      | null => simp [isObjJ] at ha
      | bool b => simp [isObjJ] at ha
      | num n => simp [isObjJ] at ha
      | str s => simp [isObjJ] at ha
      | arr l2 => simp [isObjJ] at ha

theorem mapItems_singleton (v : JVal) :
    mapItems [v] =
      match normalize_source_item v with
      | .ok it => .ok [it]
      | .error e => .error e := by
  cases hv : normalize_source_item v <;> simp [mapItems, hv]

/-- C7 (counterexample): `_normalize_sources` applied to a sequence holding a
non-record element — the bare list `["hello"]` — evaluates
`"hello".get("asset")` and raises `AttributeError` instead of returning a
record list, refuting totality as claimed. -/
theorem normalize_sources_raises_cex :
    normalize_sources (JVal.arr [JVal.str "hello"]) =
      .error "AttributeError: object has no attribute get" := rfl

/-- C7 (amended): the normalizer is total — returning a possibly empty
record list, with unrecognized non-sequence shapes degrading to the empty
sequence — for every payload in which the sequence it elects to normalize
(top-level list, `results` list, wrapped single record, or first plausible
nested list) contains only keyed objects; it raises only when such a
sequence holds a non-object element. -/
theorem objRest_ok {fields : List (String × JVal)}
    (hsel : ∀ l, objSeq? fields = some l → ∀ e ∈ l, isObjJ e = true) :
    ∃ out, objRest fields = .ok out := by
  unfold objRest objSeq? at *
  by_cases hid : (truthy (getJ fields "id") || truthy (getJ fields "title")) = true
  · exact ⟨[source_item_fields fields], by simp only [hid, if_true, normalize_source_item]⟩
  · have hid' : (truthy (getJ fields "id") || truthy (getJ fields "title")) = false := by
      simpa using hid
    rw [hid'] at hsel ⊢
    simp only [Bool.false_eq_true, if_false] at hsel ⊢
    cases hnest : findNestedList fields with
    | none => exact ⟨[], rfl⟩
    | some l =>
        obtain ⟨out, hout⟩ := mapItems_ok_of_obj (hsel l hnest)
        exact ⟨out, hout⟩

theorem objRest_empty_of_none {fields : List (String × JVal)}
    (hsel : objSeq? fields = none) : objRest fields = .ok [] := by
  unfold objSeq? at hsel
  unfold objRest
  by_cases hid : (truthy (getJ fields "id") || truthy (getJ fields "title")) = true
  · rw [hid] at hsel; simp at hsel
  · have hid' : (truthy (getJ fields "id") || truthy (getJ fields "title")) = false := by
      simpa using hid
    rw [hid'] at hsel ⊢
    simp only [Bool.false_eq_true, if_false] at hsel ⊢
    rw [hsel]

theorem normalize_sources_total_amended :
    (∀ d : JVal, (∀ l, selectedSeq? d = some l → ∀ e ∈ l, isObjJ e = true) →
       ∃ out, normalize_sources d = .ok out)
  ∧ (∀ s : String, normalize_sources (JVal.str s) = .ok [])
  ∧ (∀ n : Int, normalize_sources (JVal.num n) = .ok [])
  ∧ (∀ b : Bool, normalize_sources (JVal.bool b) = .ok [])
  ∧ (∀ fields : List (String × JVal), selectedSeq? (JVal.obj fields) = none →
       normalize_sources (JVal.obj fields) = .ok []) := by
  refine ⟨?_, fun _ => rfl, fun _ => rfl, fun _ => rfl, ?_⟩
  · intro d hsel
    cases d with
    | null => exact ⟨[], rfl⟩
    | bool b => exact ⟨[], rfl⟩
    | num n => exact ⟨[], rfl⟩
    | str s => exact ⟨[], rfl⟩
    | arr l =>
        obtain ⟨out, hout⟩ := mapItems_ok_of_obj (hsel l rfl)
        exact ⟨out, by simpa [normalize_sources] using hout⟩
    | obj fields =>
        by_cases hres : resultsListed fields = true
        · unfold resultsListed at hres
          cases hj : jget fields "results" with
          | none => rw [hj] at hres; simp at hres
          | some v =>
              rw [hj] at hres
              cases v with
              | arr l =>
                  obtain ⟨out, hout⟩ := mapItems_ok_of_obj (hsel l (selectedSeq_obj_results hj))
                  exact ⟨out, by rw [normalize_sources_obj_results hj]; exact hout⟩
              | null => simp at hres
              | bool b2 => simp at hres
              | num n2 => simp at hres
              | str s2 => simp at hres
              | obj f2 => simp at hres
        · have hres' : resultsListed fields = false := by simpa using hres
          rw [normalize_sources_obj_of_not_results hres']
          refine objRest_ok ?_
          intro l hl
          exact hsel l (by rw [selectedSeq_obj_of_not_results hres', hl])
  · intro fields hsel
    by_cases hres : resultsListed fields = true
    · unfold resultsListed at hres
      cases hj : jget fields "results" with
      | none => rw [hj] at hres; simp at hres
      | some v =>
          rw [hj] at hres
          cases v with
          | arr l => rw [selectedSeq_obj_results hj] at hsel; cases hsel
          | null => simp at hres
          | bool b2 => simp at hres
          | num n2 => simp at hres
          | str s2 => simp at hres
          | obj f2 => simp at hres
    · have hres' : resultsListed fields = false := by simpa using hres
      rw [selectedSeq_obj_of_not_results hres'] at hsel
      rw [normalize_sources_obj_of_not_results hres']
      exact objRest_empty_of_none hsel

/-- Closed instantiation of `normalize_sources_total_amended`. -/
theorem normalize_sources_total_amended_witness :
    ∃ out, normalize_sources (JVal.obj [("answer", JVal.num 42)]) = .ok out :=
  normalize_sources_total_amended.1 (JVal.obj [("answer", JVal.num 42)])
    (by intro l hl; cases hl)

/-- C6 (counterexample): on the record-shaped object
`{"id": "x", "results": []}` — which has an `id` field and also a `results`
list — `_normalize_sources` normalizes the (empty) `results` list and
returns zero records, while wrapping per the claimed rule order would
produce the same one-record output as the one-element list containing the
object (pdf_uploader.py checks `"results"` at line 89 before the
single-record check at line 92). -/
theorem normalize_sources_order_cex :
    Except.map List.length
        (normalize_sources (JVal.obj [("id", JVal.str "x"), ("results", JVal.arr [])])) =
      Except.ok 0
  ∧ Except.map List.length
        (normalize_sources (JVal.arr [JVal.obj [("id", JVal.str "x"), ("results", JVal.arr [])]])) =
      Except.ok 1 :=
  ⟨rfl, rfl⟩

/-- C6 (amended): the normalizer is shape-invariant — normalizing an object
whose `results` field is a list gives the same records as normalizing that
list directly, and a record-shaped object (truthy `id` or `title`) without
a `results` list normalizes like the one-element list containing it — but
the `results`-field rule is applied before the single-record rule, so an
object carrying both shapes normalizes via its `results` field. -/
theorem normalize_sources_shape_amended :
    (∀ (fields : List (String × JVal)) (l : List JVal),
       jget fields "results" = some (JVal.arr l) →
       normalize_sources (JVal.obj fields) = normalize_sources (JVal.arr l))
  ∧ (∀ fields : List (String × JVal),
       resultsListed fields = false →
       (truthy (getJ fields "id") || truthy (getJ fields "title")) = true →
       normalize_sources (JVal.obj fields) =
         normalize_sources (JVal.arr [JVal.obj fields])) := by
  constructor
  · intro fields l h
    rw [normalize_sources_obj_results h]
    rfl
  · intro fields hres hid
    rw [normalize_sources_obj_of_not_results hres]
    unfold objRest
    rw [hid]
    simp only [if_true]
    show Except.ok [source_item_fields fields] = normalize_sources (JVal.arr [JVal.obj fields])
    rfl

/-- Closed instantiation of `normalize_sources_shape_amended`. -/
theorem normalize_sources_shape_amended_witness :
    normalize_sources (JVal.obj [("id", JVal.str "x")]) =
      normalize_sources (JVal.arr [JVal.obj [("id", JVal.str "x")]]) :=
  normalize_sources_shape_amended.2 [("id", JVal.str "x")] rfl rfl

/-! Claims C1 and C3: the document matcher -/

theorem isEmpty_false_of_mem {α : Type} {l : List α} {a : α} (h : a ∈ l) :
    l.isEmpty = false := by
  cases l with
  | nil => cases h
  | cons x t => rfl

theorem filter_eq_nil_of_all {α : Type} {l : List α} {p : α → Bool}
    (h : ∀ a ∈ l, p a = false) : l.filter p = [] := by
  induction l with
  | nil => rfl
  | cons a t ih =>
      simp only [List.filter_cons, h a (List.mem_cons_self a t), Bool.false_eq_true, if_false]
      exact ih (fun b hb => h b (List.mem_cons_of_mem a hb))

theorem strLtChars_iff : ∀ x y : List Char, strLtChars x y = true ↔ List.Lex (· < ·) x y := by
  intro x
  induction x with
  | nil =>
      intro y
      cases y with
      | nil =>
          simp only [strLtChars]
          constructor
          · intro h; cases h
          · intro h; exact absurd h (List.Lex.not_nil_right _ _)
      | cons b ys =>
          exact ⟨fun _ => List.Lex.nil, fun _ => rfl⟩
  | cons a xs ih =>
      intro y
      cases y with
      | nil =>
          simp only [strLtChars]
          constructor
          · intro h; cases h
          · intro h; exact absurd h (List.Lex.not_nil_right _ _)
      | cons b ys =>
          by_cases hab : a = b
          · subst hab
            rw [show strLtChars (a :: xs) (a :: ys) = strLtChars xs ys from by
              simp [strLtChars]]
            rw [ih ys]
            exact (List.Lex.cons_iff).symm
          · simp only [strLtChars, if_neg hab, decide_eq_true_iff]
            constructor
            · intro h; exact List.Lex.rel h
            · intro h
              cases h with
              | cons h2 => exact absurd rfl hab
              | rel h2 => exact h2

/-- The executable comparison agrees with the library order on `String`. -/
theorem strLt_iff_lt (a b : String) : strLt a b = true ↔ a < b := by
  rw [String.lt_iff_toList_lt]
  exact strLtChars_iff a.data b.data

theorem strLt_pos {a b : String} (h : a < b) : strLt a b = true := (strLt_iff_lt a b).mpr h

theorem strLt_neg {a b : String} (h : ¬ a < b) : strLt a b = false := by
  cases hs : strLt a b with
  | false => rfl
  | true => exact absurd ((strLt_iff_lt a b).mp hs) h

theorem bestByKey_cons (h x : SourceRec) (t : List SourceRec) :
    bestByKey h (x :: t) = bestByKey (if strLt (sortKey h) (sortKey x) then x else h) t := rfl

theorem bestByKey_mem : ∀ (t : List SourceRec) (h : SourceRec), bestByKey h t ∈ h :: t := by
  intro t
  induction t with
  | nil => intro h; exact List.mem_cons_self h []
  | cons x t ih =>
      intro h
      rw [bestByKey_cons]
      by_cases hc : sortKey h < sortKey x
      · rw [strLt_pos hc]
        simp only [if_true]
        exact List.mem_cons_of_mem h (ih x)
      · rw [strLt_neg hc]
        simp only [Bool.false_eq_true, if_false]
        rcases List.mem_cons.mp (ih h) with h1 | h1
        · rw [h1]; exact List.mem_cons_self h (x :: t)
        · exact List.mem_cons_of_mem h (List.mem_cons_of_mem x h1)

theorem bestByKey_ge : ∀ (t : List SourceRec) (h : SourceRec),
    ∀ s ∈ h :: t, sortKey s ≤ sortKey (bestByKey h t) := by
  intro t
  induction t with
  | nil =>
      intro h s hs
      rcases List.mem_cons.mp hs with h1 | h1
      · rw [h1]; exact le_refl _
      · cases h1
  | cons x t ih =>
      intro h s hs
      rw [bestByKey_cons]
      have hhle : sortKey h ≤ sortKey (if strLt (sortKey h) (sortKey x) then x else h) := by
        by_cases hc : sortKey h < sortKey x
        · rw [strLt_pos hc]; simp only [if_true]; exact le_of_lt hc
        · rw [strLt_neg hc]; simp only [Bool.false_eq_true, if_false]; exact le_refl _
      have hxle : sortKey x ≤ sortKey (if strLt (sortKey h) (sortKey x) then x else h) := by
        by_cases hc : sortKey h < sortKey x
        · rw [strLt_pos hc]; simp only [if_true]; exact le_refl _
        · rw [strLt_neg hc]; simp only [Bool.false_eq_true, if_false]; exact le_of_not_lt hc
      have hbest := ih (if strLt (sortKey h) (sortKey x) then x else h)
      have htop : sortKey (if strLt (sortKey h) (sortKey x) then x else h) ≤
          sortKey (bestByKey (if strLt (sortKey h) (sortKey x) then x else h) t) :=
        hbest _ (List.mem_cons_self _ t)
      rcases List.mem_cons.mp hs with h1 | h1
      · rw [h1]; exact le_trans hhle htop
      · rcases List.mem_cons.mp h1 with h2 | h2
        · rw [h2]; exact le_trans hxle htop
        · exact hbest s (List.mem_cons_of_mem _ h2)

/-- When a tier produced candidates, `find_source_for_file` returns one of
them and its sort key is maximal within the tier. -/
theorem matchCore_of_selected_ne {target : String} {cs : List SourceRec}
    (h : selectedResults target cs ≠ []) :
    ∃ r, matchCore target cs = some r ∧ r ∈ selectedResults target cs ∧
      ∀ s ∈ selectedResults target cs, sortKey s ≤ sortKey r := by
  cases hsel : selectedResults target cs with
  | nil => exact absurd hsel h
  | cons a t =>
      refine ⟨bestByKey a t, ?_, ?_, ?_⟩
      · unfold matchCore
        rw [hsel]
      · exact bestByKey_mem t a
      · intro s hs
        exact bestByKey_ge t a s hs

theorem selectedResults_exact {target : String} {cs : List SourceRec}
    (h : (exactMatches target cs).isEmpty = false) :
    selectedResults target cs = exactMatches target cs := by
  unfold selectedResults
  rw [h]
  rfl

theorem selectedResults_basename {target : String} {cs : List SourceRec}
    (he : exactMatches target cs = [])
    (h : (basenameMatches target cs).isEmpty = false) :
    selectedResults target cs = basenameMatches target cs := by
  unfold selectedResults
  rw [he, h]
  rfl

theorem selectedResults_normalized {target : String} {cs : List SourceRec}
    (he : exactMatches target cs = []) (hb : basenameMatches target cs = []) :
    selectedResults target cs = normalizedMatches target cs := by
  unfold selectedResults
  rw [he, hb]
  rfl

/-- C1: `find_source_for_file` answers from the highest non-empty tier —
exact file-path match, then basename/title match, then normalized-suffix
match — so the presence of any higher-tier candidate, wherever it sits in
the listing and whatever its timestamps, forces the result into that tier;
with no candidate in any tier it returns `none`.  (The embedding is a total
function: no exception is possible.) -/
theorem find_source_tier_priority (target : String) (cs : List SourceRec) :
    ((∃ s ∈ cs, tierOf target s = some Tier.exact) →
       ∃ r, find_source_for_file true cs target = some r ∧ r ∈ cs ∧
         tierOf target r = some Tier.exact)
  ∧ ((∀ s ∈ cs, tierOf target s ≠ some Tier.exact) →
     (∃ s ∈ cs, tierOf target s = some Tier.basename) →
       ∃ r, find_source_for_file true cs target = some r ∧ r ∈ cs ∧
         tierOf target r = some Tier.basename)
  ∧ ((∀ s ∈ cs, tierOf target s ≠ some Tier.exact ∧ tierOf target s ≠ some Tier.basename) →
     (∃ s ∈ cs, tierOf target s = some Tier.normalized) →
       ∃ r, find_source_for_file true cs target = some r ∧ r ∈ cs ∧
         tierOf target r = some Tier.normalized)
  ∧ ((∀ s ∈ cs, tierOf target s = none) → find_source_for_file true cs target = none) := by
  have hfind : find_source_for_file true cs target = matchCore target cs := rfl
  refine ⟨?_, ?_, ?_, ?_⟩
  · rintro ⟨s, hs, ht⟩
    have hmem : s ∈ exactMatches target cs :=
      List.mem_filter.mpr ⟨hs, by simp [ht]⟩
    have hsel : selectedResults target cs = exactMatches target cs :=
      selectedResults_exact (isEmpty_false_of_mem hmem)
    obtain ⟨r, hmc, hrmem, _⟩ :=
      matchCore_of_selected_ne (by rw [hsel]; exact List.ne_nil_of_mem hmem)
    rw [hsel] at hrmem
    obtain ⟨hrcs, hrt⟩ := List.mem_filter.mp hrmem
    exact ⟨r, hfind ▸ hmc, hrcs, by simpa using hrt⟩
  · intro hnone
    rintro ⟨s, hs, ht⟩
    have he : exactMatches target cs = [] :=
      filter_eq_nil_of_all (fun a ha => by
        have := hnone a ha
        simp only [beq_eq_false_iff_ne, ne_eq]
        exact this)
    have hmem : s ∈ basenameMatches target cs :=
      List.mem_filter.mpr ⟨hs, by simp [ht]⟩
    have hsel : selectedResults target cs = basenameMatches target cs :=
      selectedResults_basename he (isEmpty_false_of_mem hmem)
    obtain ⟨r, hmc, hrmem, _⟩ :=
      matchCore_of_selected_ne (by rw [hsel]; exact List.ne_nil_of_mem hmem)
    rw [hsel] at hrmem
    obtain ⟨hrcs, hrt⟩ := List.mem_filter.mp hrmem
    exact ⟨r, hfind ▸ hmc, hrcs, by simpa using hrt⟩
  · intro hnone
    rintro ⟨s, hs, ht⟩
    have he : exactMatches target cs = [] :=
      filter_eq_nil_of_all (fun a ha => by
        have := (hnone a ha).1
        simp only [beq_eq_false_iff_ne, ne_eq]
        exact this)
    have hb : basenameMatches target cs = [] :=
      filter_eq_nil_of_all (fun a ha => by
        have := (hnone a ha).2
        simp only [beq_eq_false_iff_ne, ne_eq]
        exact this)
    have hmem : s ∈ normalizedMatches target cs :=
      List.mem_filter.mpr ⟨hs, by simp [ht]⟩
    have hsel : selectedResults target cs = normalizedMatches target cs :=
      selectedResults_normalized he hb
    obtain ⟨r, hmc, hrmem, _⟩ :=
      matchCore_of_selected_ne (by rw [hsel]; exact List.ne_nil_of_mem hmem)
    rw [hsel] at hrmem
    obtain ⟨hrcs, hrt⟩ := List.mem_filter.mp hrmem
    exact ⟨r, hfind ▸ hmc, hrcs, by simpa using hrt⟩
  · intro hnone
    have hall : ∀ ti : Tier, ∀ a ∈ cs, (tierOf target a == some ti) = false := by
      intro ti a ha
      rw [hnone a ha]
      rfl
    have he : exactMatches target cs = [] := filter_eq_nil_of_all (hall Tier.exact)
    have hb : basenameMatches target cs = [] := filter_eq_nil_of_all (hall Tier.basename)
    have hn : normalizedMatches target cs = [] := filter_eq_nil_of_all (hall Tier.normalized)
    rw [hfind]
    unfold matchCore
    rw [selectedResults_normalized he hb, hn]

/-- Concrete instantiation of `find_source_tier_priority`: an exact
file-path match beats a later, fresher normalized-tier match. -/
theorem find_source_tier_priority_witness :
    ∃ r, find_source_for_file true
        [⟨some "2", some "a (2).pdf", none, none, some "2024-02-01"⟩,
         ⟨some "1", some "x", some "/x/a.pdf", none, some "2024-01-01"⟩]
        "/x/a.pdf" = some r ∧
      r ∈ [⟨some "2", some "a (2).pdf", none, none, some "2024-02-01"⟩,
           ⟨some "1", some "x", some "/x/a.pdf", none, some "2024-01-01"⟩] ∧
      tierOf "/x/a.pdf" r = some Tier.exact :=
  (find_source_tier_priority "/x/a.pdf" _).1
    ⟨⟨some "1", some "x", some "/x/a.pdf", none, some "2024-01-01"⟩,
     by decide, by decide⟩

/-- C3: among the candidates of the answering tier, the returned record has
the lexicographically greatest sort key `updated or created or ""`; a record
with neither timestamp has the empty key, which is minimal, so it sorts
last. -/
theorem find_source_tiebreak (target : String) (cs : List SourceRec) (r : SourceRec)
    (h : find_source_for_file true cs target = some r) :
    (r ∈ selectedResults target cs ∧
       ∀ s ∈ selectedResults target cs, sortKey s ≤ sortKey r)
  ∧ (∀ s : SourceRec, s.updated = none → s.created = none → sortKey s = "")
  ∧ (∀ k : String, "" ≤ k) := by
  refine ⟨?_, ?_, ?_⟩
  · have hmc : matchCore target cs = some r := h
    cases hsel : selectedResults target cs with
    | nil =>
        unfold matchCore at hmc
        rw [hsel] at hmc
        cases hmc
    | cons a t =>
        obtain ⟨r2, hr2, hmem, hge⟩ :=
          @matchCore_of_selected_ne target cs (by rw [hsel]; simp)
        rw [hmc] at hr2
        injection hr2 with hr2
        rw [← hr2] at hmem hge
        rw [hsel] at hmem hge
        exact ⟨hmem, hge⟩
  · intro s hu hc
    unfold sortKey orEmpty
    rw [hu, hc]
    rfl
  · intro k
    rw [String.le_iff_toList_le]
    exact List.nil_le

/-- Concrete instantiation of `find_source_tiebreak`: two same-tier matches,
the later-updated record wins. -/
theorem find_source_tiebreak_witness :
    ⟨some "2", some "a.pdf", none, none, some "2024-02-01"⟩ ∈
        selectedResults "a.pdf"
          [⟨some "1", some "a.pdf", none, none, some "2024-01-01"⟩,
           ⟨some "2", some "a.pdf", none, none, some "2024-02-01"⟩] ∧
      ∀ s ∈ selectedResults "a.pdf"
          [⟨some "1", some "a.pdf", none, none, some "2024-01-01"⟩,
           ⟨some "2", some "a.pdf", none, none, some "2024-02-01"⟩],
        sortKey s ≤ sortKey (⟨some "2", some "a.pdf", none, none, some "2024-02-01"⟩ : SourceRec) :=
  (find_source_tiebreak "a.pdf"
    [⟨some "1", some "a.pdf", none, none, some "2024-01-01"⟩,
     ⟨some "2", some "a.pdf", none, none, some "2024-02-01"⟩]
    ⟨some "2", some "a.pdf", none, none, some "2024-02-01"⟩ (by decide)).1

/-! Claims C5 and C10: the uploader around the matcher -/

/-- C5: when the matcher (queried with the derived filename: the title if
given, else the basename of the local path) finds an existing record, the
upload operation issues zero `POST /sources` creation requests and returns a
success whose `sources` list is exactly that record. -/
theorem upload_skips_when_match_exists
    (listOk : Bool) (cs : List SourceRec) (file_path : String) (title : Option String)
    (uploadOk : Bool) (uploadStatus : Int) (uploadSources : List SourceRec) (r : SourceRec)
    (h : find_source_for_file listOk cs (derivedFilename title file_path) = some r) :
    upload_file_and_process listOk cs file_path title uploadOk uploadStatus uploadSources =
      ⟨0, true, 200, [r]⟩ := by
  simp only [upload_file_and_process, h]

/-- Concrete instantiation of `upload_skips_when_match_exists`. -/
theorem upload_skips_when_match_exists_witness :
    upload_file_and_process true [⟨some "1", some "a.pdf", none, none, none⟩]
        "/tmp/a.pdf" none true 201 [] =
      ⟨0, true, 200, [⟨some "1", some "a.pdf", none, none, none⟩]⟩ :=
  upload_skips_when_match_exists true [⟨some "1", some "a.pdf", none, none, none⟩]
    "/tmp/a.pdf" none true 201 [] ⟨some "1", some "a.pdf", none, none, none⟩ (by decide)

/-- C10: a failing `GET /sources` listing makes `find_source_for_file`
return `None` — indistinguishable from "no match" — so `source_exists`
reports `false` and `upload_file_and_process` still issues its one creation
request even if a matching document exists among the (unreachable)
candidates. -/
theorem find_source_listing_failure (cs : List SourceRec) (target file_path : String)
    (title : Option String) (uploadOk : Bool) (uploadStatus : Int)
    (uploadSources : List SourceRec) :
    find_source_for_file false cs target = none
  ∧ source_exists false cs target = false
  ∧ (upload_file_and_process false cs file_path title uploadOk uploadStatus
      uploadSources).creationRequests = 1 := by
  refine ⟨rfl, rfl, ?_⟩
  simp only [upload_file_and_process, find_source_for_file]
  cases uploadOk <;> rfl

/-! Claim C4: the polling loop -/

theorem pollAux_success (resp : Nat → PollResp) :
    ∀ (fuel k j : Nat) (s : String) (raw : JVal), j ≤ fuel →
      (∀ i, i < j → checkPollResp (resp (k + i)) = .ok none) →
      checkPollResp (resp (k + j)) = .ok (some (s, raw)) →
      pollAux resp k fuel = .ok ⟨k + j + 1, s, raw⟩ := by
  intro fuel
  induction fuel with
  | zero =>
      intro k j s raw hj hpre hterm
      have hj0 : j = 0 := Nat.le_zero.mp hj
      subst hj0
      have hterm' : checkPollResp (resp k) = .ok (some (s, raw)) := hterm
      simp only [pollAux, hterm']
  | succ fuel ih =>
      intro k j s raw hj hpre hterm
      cases j with
      | zero =>
          have hterm' : checkPollResp (resp k) = .ok (some (s, raw)) := hterm
          simp only [pollAux, hterm']
      | succ j' =>
          have h0 : checkPollResp (resp k) = .ok none := hpre 0 (Nat.succ_pos j')
          have hrec := ih (k + 1) j' s raw (Nat.succ_le_succ_iff.mp hj)
            (fun i hi => by
              have hx := hpre (i + 1) (Nat.succ_lt_succ hi)
              have heq : k + (i + 1) = k + 1 + i := by omega
              rw [heq] at hx
              exact hx)
            (by
              have heq : k + (j' + 1) = k + 1 + j' := by omega
              rw [heq] at hterm
              exact hterm)
          have hreq : k + 1 + j' + 1 = k + (j' + 1) + 1 := by omega
          rw [hreq] at hrec
          simp only [pollAux, h0]
          exact hrec

theorem pollAux_timeout (resp : Nat → PollResp) :
    ∀ (fuel k : Nat), (∀ j, j ≤ fuel → checkPollResp (resp (k + j)) = .ok none) →
      pollAux resp k fuel = .error .timeoutErr := by
  intro fuel
  induction fuel with
  | zero =>
      intro k h
      have h0 : checkPollResp (resp k) = .ok none := h 0 (Nat.le_refl 0)
      simp only [pollAux, h0]
  | succ fuel ih =>
      intro k h
      have h0 : checkPollResp (resp k) = .ok none := h 0 (Nat.zero_le _)
      simp only [pollAux, h0]
      exact ih (k + 1) (fun j hj => by
        have hx := h (j + 1) (Nat.succ_le_succ hj)
        have heq : k + (j + 1) = k + 1 + j := by omega
        rw [heq] at hx
        exact hx)

/-- C4: the polling loop returns success exactly at the first response whose
wrapped status is terminal (`completed` or `failed`), issuing exactly that
many requests; a non-2xx response, like an ok response without a terminal
status, is treated as non-terminal and polling continues; when every
response the deadline allows is non-terminal the loop fails with the
distinct `TimeoutError` outcome rather than returning a normal result. -/
theorem poll_source_status_spec :
    (∀ (resp : Nat → PollResp) (fuel j : Nat) (s : String) (raw : JVal),
       j ≤ fuel → (∀ i, i < j → checkPollResp (resp i) = .ok none) →
       checkPollResp (resp j) = .ok (some (s, raw)) →
       poll_source_status resp fuel = .ok ⟨j + 1, s, raw⟩)
  ∧ (∀ (resp : Nat → PollResp) (fuel : Nat),
       (∀ j, j ≤ fuel → checkPollResp (resp j) = .ok none) →
       poll_source_status resp fuel = .error .timeoutErr)
  ∧ (∀ r : PollResp, r.ok = false → checkPollResp r = .ok none)
  ∧ (∀ (r : PollResp) (f : List (String × JVal)), r.ok = true → r.data = .obj f →
       jget f "status" = none → checkPollResp r = .ok none)
  ∧ (∀ (r : PollResp) (s : String) (raw : JVal),
       checkPollResp r = .ok (some (s, raw)) →
       r.ok = true ∧ (s = "completed" ∨ s = "failed")) := by
  refine ⟨?_, ?_, ?_, ?_, ?_⟩
  · intro resp fuel j s raw hj hpre hterm
    have := pollAux_success resp fuel 0 j s raw hj
      (fun i hi => by rw [Nat.zero_add]; exact hpre i hi)
      (by rw [Nat.zero_add]; exact hterm)
    rw [Nat.zero_add] at this
    exact this
  · intro resp fuel h
    exact pollAux_timeout resp fuel 0 (fun j hj => by rw [Nat.zero_add]; exact h j hj)
  · intro r h
    unfold checkPollResp
    rw [h]
    rfl
  · intro r f hok hdata hst
    unfold checkPollResp
    rw [hok, hdata]
    cases f with
    | nil => rfl
    | cons p rest =>
        have htr : truthy (JVal.obj (p :: rest)) = true := rfl
        rw [htr]
        simp only [if_true]
        unfold getJ
        rw [hst]
        rfl
  · intro r s raw h
    unfold checkPollResp at h
    cases hok : r.ok with
    | false => rw [hok] at h; simp at h
    | true =>
        rw [hok] at h
        simp only [if_true] at h
        refine ⟨rfl, ?_⟩
        cases hd : (if truthy r.data then r.data else JVal.obj []) with
        | obj f =>
            rw [hd] at h
            have h2 : (match terminalStatus (getJ f "status") with
                | some st => Except.ok (some (st, JVal.obj f))
                | none => (Except.ok none : Except String (Option (String × JVal)))) =
                Except.ok (some (s, raw)) := h
            cases hg : getJ f "status" with
            | str u =>
                rw [hg] at h2
                by_cases hu : (u == "completed" || u == "failed") = true
                · simp only [terminalStatus, hu, if_true, Except.ok.injEq,
                    Option.some.injEq, Prod.mk.injEq] at h2
                  rcases h2 with ⟨h4, -⟩
                  rw [← h4]
                  rcases Bool.or_eq_true_iff.mp hu with hc | hc
                  · exact Or.inl (by simpa using hc)
                  · exact Or.inr (by simpa using hc)
                · have hu' : (u == "completed" || u == "failed") = false := by simpa using hu
                  simp only [terminalStatus, hu', Bool.false_eq_true, if_false] at h2
                  simp at h2
            | null => rw [hg] at h2; simp [terminalStatus] at h2
            | bool b => rw [hg] at h2; simp [terminalStatus] at h2
            | num n => rw [hg] at h2; simp [terminalStatus] at h2
            | arr l => rw [hg] at h2; simp [terminalStatus] at h2
            | obj f2 => rw [hg] at h2; simp [terminalStatus] at h2
        | null => rw [hd] at h; simp at h
        | bool b => rw [hd] at h; simp at h
        | num n => rw [hd] at h; simp at h
        | str u => rw [hd] at h; simp at h
        | arr l => rw [hd] at h; simp at h


/-- Concrete instantiation of `poll_source_status_spec`: with `completed` on
the third response the loop returns success after exactly three requests. -/
theorem poll_source_status_spec_witness :
    poll_source_status respCompletedThird 9 =
      .ok ⟨3, "completed", JVal.obj [("status", JVal.str "completed")]⟩ :=
  poll_source_status_spec.1 respCompletedThird 9 2 "completed"
    (JVal.obj [("status", JVal.str "completed")]) (by decide)
    (fun i hi => by interval_cases i <;> rfl) rfl

/-! Claim C8: the session-scoped ask stream -/


theorem joinChunks_map_str : ∀ l : List String, joinChunks (l.map JVal.str) = .ok (concatStrs l) := by
  intro l
  induction l with
  | nil => rfl
  | cons s t ih => simp only [List.map_cons, joinChunks, ih, Except.map, concatStrs]

theorem foldlM_stream (lines : List RawLine) :
    ∀ E C : List JVal, (∀ l ∈ lines, wfLine l = true) →
      lines.foldlM streamStep (E, C) =
        .ok (E ++ lines.map lineEvent, C ++ (lines.filterMap lineChunk?).map JVal.str) := by
  induction lines with
  | nil =>
      intro E C _
      simp only [List.foldlM_nil, List.map_nil, List.filterMap_nil, List.append_nil]
      rfl
  | cons l rest ih =>
      intro E C h
      have hl : wfLine l = true := h l (List.mem_cons_self l rest)
      have hrest : ∀ x ∈ rest, wfLine x = true := fun x hx => h x (List.mem_cons_of_mem l hx)
      rw [List.foldlM_cons]
      cases l with
      | undecodable body =>
          have hstep : streamStep (E, C) (.undecodable body) = .ok (E ++ [textEvent body], C) := rfl
          rw [hstep]
          show List.foldlM streamStep (E ++ [textEvent body], C) rest = _
          rw [ih _ _ hrest]
          simp [lineEvent, lineChunk?, List.append_assoc]
      | decoded v =>
          cases v with
          | obj f =>
              have hstepred : streamStep (E, C) (.decoded (.obj f)) =
                  (if jvalEqStr (evTypeOf f) "ai_message" then
                     Except.ok (E ++ [JVal.obj f], C ++ [evContentOf f])
                   else Except.ok (E ++ [JVal.obj f], C)) := rfl
              have hchred : lineChunk? (.decoded (.obj f)) =
                  (if jvalEqStr (evTypeOf f) "ai_message" then
                     match evContentOf f with
                     | JVal.str s => some s
                     | _ => none
                   else none) := rfl
              by_cases hai : jvalEqStr (evTypeOf f) "ai_message" = true
              · have hstr : ∃ s, evContentOf f = JVal.str s := by
                  have hl' : (if jvalEqStr (evTypeOf f) "ai_message" then
                      match evContentOf f with
                      | JVal.str _ => true
                      | _ => false
                    else true) = true := hl
                  rw [hai] at hl'
                  simp only [if_true] at hl'
                  cases hc : evContentOf f with
                  | str s => exact ⟨s, rfl⟩
                  | null => rw [hc] at hl'; simp at hl'
                  | bool b => rw [hc] at hl'; simp at hl'
                  | num n => rw [hc] at hl'; simp at hl'
                  | arr a => rw [hc] at hl'; simp at hl'
                  | obj o => rw [hc] at hl'; simp at hl'
                obtain ⟨s, hs⟩ := hstr
                have hstep : streamStep (E, C) (.decoded (.obj f)) =
                    .ok (E ++ [JVal.obj f], C ++ [JVal.str s]) := by
                  rw [hstepred, hai]
                  simp only [if_true, hs]
                rw [hstep]
                show List.foldlM streamStep (E ++ [JVal.obj f], C ++ [JVal.str s]) rest = _
                rw [ih _ _ hrest]
                have hch : lineChunk? (.decoded (.obj f)) = some s := by
                  rw [hchred, hai]
                  simp only [if_true, hs]
                simp [lineEvent, hch, List.append_assoc]
              · have hai' : jvalEqStr (evTypeOf f) "ai_message" = false := by simpa using hai
                have hstep : streamStep (E, C) (.decoded (.obj f)) =
                    .ok (E ++ [JVal.obj f], C) := by
                  rw [hstepred, hai']
                  simp only [Bool.false_eq_true, if_false]
                rw [hstep]
                show List.foldlM streamStep (E ++ [JVal.obj f], C) rest = _
                rw [ih _ _ hrest]
                have hch : lineChunk? (.decoded (.obj f)) = none := by
                  rw [hchred, hai']
                  simp
                simp [lineEvent, hch, List.append_assoc]
          | null => simp [wfLine] at hl
          | bool b => simp [wfLine] at hl
          | num n => simp [wfLine] at hl
          | str s => simp [wfLine] at hl
          | arr a => simp [wfLine] at hl

/-- C8: when the stream completes, the returned answer is the concatenation,
in arrival order, of the content (or data) fields of exactly the decoded
events tagged `ai_message`; the events list records every line in order,
with an undecodable line stored as a plain-text event that contributes
nothing to the answer and does not abort processing. -/
theorem ask_stream_answer_spec (lines : List RawLine)
    (h : ∀ l ∈ lines, wfLine l = true) :
    ask_stream lines =
      .ok ⟨(lines.filterMap lineChunk?).length,
           concatStrs (lines.filterMap lineChunk?),
           lines.map lineEvent⟩ := by
  unfold ask_stream
  rw [foldlM_stream lines [] [] h]
  show (joinChunks ((lines.filterMap lineChunk?).map JVal.str)).bind _ = _
  rw [joinChunks_map_str]
  simp [Except.bind, List.length_map]

/-- Concrete instantiation of `ask_stream_answer_spec`: four lines — a
non-AI event, an `ai_message` carrying `"partial-"`, an undecodable line,
and an `ai_message` carrying `"answer"` — produce the answer
`"partial-answer"` with all four events recorded in order. -/
theorem ask_stream_answer_spec_witness :
    ask_stream
        [.decoded (.obj [("type", JVal.str "status"), ("content", JVal.str "ignored")]),
         .decoded (.obj [("type", JVal.str "ai_message"), ("content", JVal.str "partial-")]),
         .undecodable "garbage line",
         .decoded (.obj [("type", JVal.str "ai_message"), ("data", JVal.str "answer")])] =
      .ok ⟨2, "partial-answer",
           [.obj [("type", JVal.str "status"), ("content", JVal.str "ignored")],
            .obj [("type", JVal.str "ai_message"), ("content", JVal.str "partial-")],
            textEvent "garbage line",
            .obj [("type", JVal.str "ai_message"), ("data", JVal.str "answer")]]⟩ := by
  have h := ask_stream_answer_spec
    [.decoded (.obj [("type", JVal.str "status"), ("content", JVal.str "ignored")]),
     .decoded (.obj [("type", JVal.str "ai_message"), ("content", JVal.str "partial-")]),
     .undecodable "garbage line",
     .decoded (.obj [("type", JVal.str "ai_message"), ("data", JVal.str "answer")])]
    (by decide)
  rw [h]
  rfl

/-! Claim C9: notebook pipeline request counts -/

theorem step_notebook_log (b : NBBackend) (nid : Option String) :
    (step_notebook b nid).1 = if nid.isSome then [] else [Endpoint.notebooksCreate] := by
  cases nid with
  | some n => rfl
  | none =>
      unfold step_notebook
      cases b.nbCreateOk with
      | false => rfl
      | true => cases b.nbCreateData <;> rfl

theorem step_session_log (b : NBBackend) (sid : Option String) :
    (step_session b sid).1 = if sid.isSome then [] else [Endpoint.chatSessionsCreate] := by
  cases sid with
  | some n => rfl
  | none =>
      unfold step_session
      cases b.sessOk with
      | false => rfl
      | true => cases b.sessData <;> rfl

/-- C9: on a run that returns successfully, `notebook_ask` issued the
workspace-creation request `POST /notebooks` exactly once when
`notebook_id` was omitted and zero times when it was supplied, and the
session-creation request `POST /chat/sessions` exactly once when
`session_id` was omitted and zero times when it was supplied. -/
theorem notebook_ask_request_counts (b : NBBackend)
    (notebook_id session_id : Option String) (log : List Endpoint) (r : NBResult)
    (h : notebook_ask b notebook_id session_id = (log, .ok r)) :
    log.count Endpoint.notebooksCreate = (if notebook_id.isSome then 0 else 1)
  ∧ log.count Endpoint.chatSessionsCreate = (if session_id.isSome then 0 else 1) := by
  unfold notebook_ask at h
  repeat' split at h
  all_goals try (exfalso; simp [Prod.ext_iff] at h; done)
  rename_i x3 l2 r2 nbid heq2 hlink hctx x2 cf heqc x1 l5 r5 sid heq5 hexec xx msgs ans heqx
  have hlog : ([Endpoint.modelsDefaults] ++ l2 ++ [Endpoint.linkSource] ++
      [Endpoint.chatContext] ++ l5 ++ [Endpoint.chatExecute] : List Endpoint) = log :=
    congrArg Prod.fst h
  have hl2 : l2 = if notebook_id.isSome then [] else [Endpoint.notebooksCreate] := by
    have hx := step_notebook_log b notebook_id
    rw [heq2] at hx
    exact hx
  have hl5 : l5 = if session_id.isSome then [] else [Endpoint.chatSessionsCreate] := by
    have hx := step_session_log b session_id
    rw [heq5] at hx
    exact hx
  rw [← hlog]
  constructor
  · cases notebook_id <;> simp at hl2 <;> subst hl2 <;>
      cases session_id <;> simp at hl5 <;> subst hl5 <;>
        simp [List.count_append, List.count_cons, List.count_nil]
  · cases session_id <;> simp at hl5 <;> subst hl5 <;>
      cases notebook_id <;> simp at hl2 <;> subst hl2 <;>
        simp [List.count_append, List.count_cons, List.count_nil]


/-- Concrete instantiation of `notebook_ask_request_counts`: with both ids
omitted and every step succeeding, each creation endpoint is hit exactly
once. -/
theorem notebook_ask_request_counts_witness :
    ([Endpoint.modelsDefaults, Endpoint.notebooksCreate, Endpoint.linkSource,
      Endpoint.chatContext, Endpoint.chatSessionsCreate, Endpoint.chatExecute] :
        List Endpoint).count Endpoint.notebooksCreate = 1
  ∧ ([Endpoint.modelsDefaults, Endpoint.notebooksCreate, Endpoint.linkSource,
      Endpoint.chatContext, Endpoint.chatSessionsCreate, Endpoint.chatExecute] :
        List Endpoint).count Endpoint.chatSessionsCreate = 1 :=
  notebook_ask_request_counts nbBackendOkW none none
    [Endpoint.modelsDefaults, Endpoint.notebooksCreate, Endpoint.linkSource,
     Endpoint.chatContext, Endpoint.chatSessionsCreate, Endpoint.chatExecute]
    ⟨.str "nb1", .str "s1",
     .arr [.obj [("type", .str "ai"), ("content", .str "hi")]], .str "hi"⟩ rfl

end Caller
